import Mathlib

namespace Game2021

/-!
Shallow embedding of `src/models/match.player.ts` — the authoritative
player-state core of a two-player naval combat game: board construction with
per-cell hit tracking, attack resolution, attack history, opponent-view
redaction and serialization.

The class's imported collaborators (`@app/utils`, `@app/game/types`,
`@app/payloads/*`) are not part of the source tree; those few definitions are
modelled from the specification and marked `Modelled from the spec:`.
All other definitions are translated directly from `match.player.ts`.
-/

/-- Modelled from the spec: `CellPosition` is an (x, y) integer coordinate
pair identifying one grid cell; equality is value-based. -/
structure CellPosition where
  x : Int
  y : Int
deriving DecidableEq, Repr

/-- Modelled from the spec: board orientation of a ship. -/
inductive Orientation
  | horizontal
  | vertical
deriving DecidableEq, Repr

/-- Modelled from the spec: the fixed enumerated set of ship kinds. -/
inductive ShipType
  | Battleship
  | Destroyer
  | Submarine
deriving DecidableEq, Repr, Fintype

/-- Modelled from the spec: each ship type has a fixed positive integer size
(cell count) known globally (`ShipSize` table in `@app/game/types`). -/
def ShipSize : ShipType → Nat
  | .Battleship => 4
  | .Destroyer => 3
  | .Submarine => 2

/-- Iteration order over the ship-type record keys (`for key in positions` /
`Object.values(positions)`): declaration order of the enumerated type. -/
def shipTypes : List ShipType := [.Battleship, .Destroyer, .Submarine]

/-- Modelled from the spec: the attack payload carries an origin cell and may
carry an optional prediction/heuristic annotation (`AttackDataPayload` in
`@app/payloads/incoming`; the `prediction` field is also named directly in
`toOpponentJSON`). The content of the prediction metadata is irrelevant to
the core, so it is modelled as a string. -/
structure AttackDataPayload where
  origin : CellPosition
  prediction : Option String
deriving DecidableEq, Repr

/-- Modelled from the spec: `AttackResult` is a tagged union — a miss carries
the origin; a hit carries the origin, the cell's ship type and whether the
owning ship was destroyed (`{...hitCell, destroyed}` spreads the cell's
`origin`, `hit: true` and `type` fields plus `destroyed`). -/
inductive AttackResult
  | miss (origin : CellPosition)
  | hit (origin : CellPosition) (type : ShipType) (destroyed : Bool)
deriving DecidableEq, Repr

/-- Reading the `hit` field of an `AttackResult` value (`atk.result.hit`). -/
def AttackResult.isHit : AttackResult → Bool
  | .miss _ => false
  | .hit _ _ _ => true

/-- The location and hit status of a ship cell (`StoredShipDataCell`). -/
structure StoredShipDataCell where
  origin : CellPosition
  hit : Bool
  type : ShipType
deriving DecidableEq, Repr

/-- A stored attack record (`StoredAttackData`): capture timestamp, the
attack input, and its result. -/
structure StoredAttackData where
  ts : Nat
  attack : AttackDataPayload
  result : AttackResult
deriving DecidableEq, Repr

/-- The ship data that is stored: cells and their current state
(`StoredShipData`). -/
structure StoredShipData where
  sunk : Bool
  type : ShipType
  origin : CellPosition
  orientation : Orientation
  cells : List StoredShipDataCell
deriving DecidableEq, Repr

/-- Container type to store player ship position data
(`PlayerPositionData`): one `StoredShipData` per ship type. -/
def PlayerPositionData : Type := ShipType → StoredShipData

/-- The opponent ship placements (`OpponentPositionData`): positions is a
partial map — a ship is only present once destroyed. -/
structure OpponentPositionData where
  valid : Bool
  positions : ShipType → Option StoredShipData

/-- A player's board: positions plus validation flag
(`MatchPlayerBoardData`). -/
structure MatchPlayerBoardData where
  valid : Bool
  positions : PlayerPositionData

/-- Modelled from the spec: a ship placement entry is an origin plus an
orientation (`ShipPositionData` entries in `@app/game/types`). -/
structure ShipPositionEntry where
  origin : CellPosition
  orientation : Orientation
deriving DecidableEq, Repr

/-- Ship placement input: one entry per ship type (`ShipPositionData`). -/
def ShipPositionData : Type := ShipType → ShipPositionEntry

/-- The serialized player state (`MatchPlayerData`). The wire `score` is a
JavaScript number that may be `NaN` (for which `isNaN` in the constructor
tests); `none` models a non-numeric/missing score, `some v` a numeric one. -/
structure MatchPlayerData where
  uuid : String
  username : String
  score : Option Int
  isAi : Bool
  match_ : String
  board : MatchPlayerBoardData
  attacks : List StoredAttackData

/-- The sanitised opponent-facing data (`MatchOpponentData`). -/
structure MatchOpponentData where
  username : String
  attacks : List StoredAttackData
  board : OpponentPositionData

/-- The in-memory `MatchPlayer` instance: private fields of the class plus
the `uuid` held by the `Model` base class. A live instance's `score` is a
genuine number (`isNaN` coercion happens in the constructor). -/
structure MatchPlayer where
  uuid : String
  username : String
  score : Int
  isAi : Bool
  match_ : String
  board : MatchPlayerBoardData
  attacks : List StoredAttackData

/-- Modelled from the spec: `isSameOrigin` (from `@app/utils`) is value-based
equality of cell positions. -/
def isSameOrigin (a b : CellPosition) : Bool := a = b

/-- Modelled from the spec: `getCellCoverageForOriginOrientationAndArea`
(from `@app/utils`) returns exactly `size` cells starting at `origin`,
extending along the x-axis if horizontal and the y-axis if vertical, in
increasing-coordinate order; pure geometry, no bounds checking. -/
def getCellCoverageForOriginOrientationAndArea
    (origin : CellPosition) (orientation : Orientation) (size : Nat) :
    List CellPosition :=
  match orientation with
  | .horizontal => (List.range size).map (fun (i : Nat) => ⟨origin.x + (i : Int), origin.y⟩)
  | .vertical => (List.range size).map (fun (i : Nat) => ⟨origin.x, origin.y + (i : Int)⟩)

/-- Translation of `createPositionDataWithCells`: explode each placement
entry into the cells the ship occupies, each initially unhit, with
`sunk := false`. (The source reduces over the record keys; per key the
produced record is as below.) -/
def createPositionDataWithCells (data : ShipPositionData) :
    PlayerPositionData :=
  fun type =>
    let shipData := data type
    let cells := getCellCoverageForOriginOrientationAndArea
      shipData.origin shipData.orientation (ShipSize type)
    { sunk := false
      type := type
      origin := shipData.origin
      orientation := shipData.orientation
      cells := cells.map (fun origin => { hit := false, origin := origin, type := type }) }

/-- The constructor options record (`opts` parameter of the constructor):
`score` is a possibly-NaN number, `board` and `attacks` are optional. -/
structure MatchPlayerOpts where
  username : String
  isAi : Bool
  uuid : String
  match_ : String
  score : Option Int
  board : Option MatchPlayerBoardData
  attacks : Option (List StoredAttackData)

/-- Translation of the `MatchPlayer` constructor. The random layout drawn by
`getRandomShipLayout()` (an external collaborator, modelled from the spec as
an arbitrary placement) is passed as the `layout` parameter; it is consulted
only when no board is supplied. `attacks := opts.attacks || []` and
`score := isNaN(opts.score) ? 0 : opts.score`. -/
def MatchPlayer.construct (layout : ShipPositionData) (opts : MatchPlayerOpts) :
    MatchPlayer :=
  { uuid := opts.uuid
    match_ := opts.match_
    attacks := opts.attacks.getD []
    score := opts.score.getD 0
    username := opts.username
    isAi := opts.isAi
    board :=
      match opts.board with
      | some b => b
      | none =>
        { valid := false
          positions := createPositionDataWithCells layout } }

/-- Translation of `MatchPlayer.from(data)`: rehydrate an instance from a
serialized snapshot by passing it to the constructor. -/
def MatchPlayer.from (layout : ShipPositionData) (data : MatchPlayerData) :
    MatchPlayer :=
  MatchPlayer.construct layout
    { username := data.username
      isAi := data.isAi
      uuid := data.uuid
      match_ := data.match_
      score := data.score
      board := some data.board
      attacks := some data.attacks }

/-- Translation of `setShipPositionData`. -/
def MatchPlayer.setShipPositionData (p : MatchPlayer)
    (data : ShipPositionData) (valid : Bool) : MatchPlayer :=
  { p with board := { valid := valid, positions := createPositionDataWithCells data } }

/-- Translation of `recordAttackResult`. `Date.now()` is ambient wall-clock
input, passed explicitly as `ts`. -/
def MatchPlayer.recordAttackResult (p : MatchPlayer) (ts : Nat)
    (attack : AttackDataPayload) (result : AttackResult) : MatchPlayer :=
  { p with attacks := p.attacks ++ [{ ts := ts, attack := attack, result := result }] }

/-- Translation of `incrementScoreBy`: returns the new score and the updated
state. -/
def MatchPlayer.incrementScoreBy (p : MatchPlayer) (amount : Int) :
    Int × MatchPlayer :=
  (p.score + amount, { p with score := p.score + amount })

/-- Translation of `setMatchInstanceUUID`. -/
def MatchPlayer.setMatchInstanceUUID (p : MatchPlayer) (uuid : String) :
    MatchPlayer :=
  { p with match_ := uuid }

/-- Translation of `hasAttacked`. -/
def MatchPlayer.hasAttacked (p : MatchPlayer) : Bool :=
  p.attacks.length > 0

/-- Translation of `hasAttackedLocation`. -/
def MatchPlayer.hasAttackedLocation (p : MatchPlayer) (origin : CellPosition) :
    Bool :=
  (p.attacks.find? (fun a => isSameOrigin a.attack.origin origin)).isSome

/-- Translation of `getShotsFiredCount`. -/
def MatchPlayer.getShotsFiredCount (p : MatchPlayer) : Nat :=
  p.attacks.length

/-- Translation of the in-place mutation performed by
`ship.cells.find((c) => isSameOrigin(c.origin, origin))` followed by
`hitCell.hit = true`: the first cell whose origin matches is replaced by a
copy with `hit := true`; the mutated cell is returned alongside the updated
list (the source result object spreads the cell after its mutation). -/
def hitShipCells (origin : CellPosition) :
    List StoredShipDataCell → Option (List StoredShipDataCell × StoredShipDataCell)
  | [] => none
  | c :: rest =>
    if isSameOrigin c.origin origin then
      some ({ c with hit := true } :: rest, { c with hit := true })
    else
      match hitShipCells origin rest with
      | none => none
      | some (rest', cell) => some (c :: rest', cell)

/-- The loop body of `determineAttackResult`: iterate the ship-type keys; a
sunk ship is skipped; for the first non-sunk ship with a matching cell, mark
the cell hit, recompute `destroyed` as the reduce-conjunction of all its
cells' hit flags, set `sunk` when destroyed, and return the hit result plus
the updated positions. `none` means the loop fell through (a miss). -/
def determineAttackLoop (positions : PlayerPositionData) (origin : CellPosition) :
    List ShipType → Option (AttackResult × PlayerPositionData)
  | [] => none
  | t :: rest =>
    let ship := positions t
    if ship.sunk then
      determineAttackLoop positions origin rest
    else
      match hitShipCells origin ship.cells with
      | none => determineAttackLoop positions origin rest
      | some (cells', hitCell) =>
        let destroyed := cells'.foldl (fun d v => d && v.hit) true
        let ship' : StoredShipData :=
          { ship with cells := cells', sunk := if destroyed then true else ship.sunk }
        some (AttackResult.hit hitCell.origin hitCell.type destroyed,
          fun t2 => if t2 = t then ship' else positions t2)

/-- Translation of `determineAttackResult`: resolve an incoming attack
against this player's board, returning the result and the updated state. -/
def MatchPlayer.determineAttackResult (p : MatchPlayer)
    (payload : AttackDataPayload) : AttackResult × MatchPlayer :=
  match determineAttackLoop p.board.positions payload.origin shipTypes with
  | some (result, positions') =>
    (result, { p with board := { p.board with positions := positions' } })
  | none => (AttackResult.miss payload.origin, p)

/-- Translation of `toOpponentJSON`. The opponent board reveals only sunk
ships (inserted under the ship record's own `type` key, in key-iteration
order). The outgoing attack list is built from shallow copies
(`atk = {...a}`) of the stored records, but `delete a.attack.prediction`
removes the prediction from the shared `attack` object of the ORIGINAL
stored record, so both the outgoing copies and the stored attack history end
up stripped: the second component is the post-call instance state. -/
def MatchPlayer.toOpponentJSON (p : MatchPlayer) :
    MatchOpponentData × MatchPlayer :=
  let positionsOut : ShipType → Option StoredShipData :=
    shipTypes.foldl
      (fun acc t =>
        let ship := p.board.positions t
        if ship.sunk then
          fun t2 => if t2 = ship.type then some ship else acc t2
        else acc)
      (fun _ => none)
  let strippedAttacks := p.attacks.map
    (fun a => { a with attack := { a.attack with prediction := none } })
  ({ username := p.username
     attacks := strippedAttacks
     board := { valid := p.board.valid, positions := positionsOut } },
   { p with attacks := strippedAttacks })

/-- Translation of `toJSON`: the full serialized snapshot. The live score is
a genuine number, hence `some`. -/
def MatchPlayer.toJSON (p : MatchPlayer) : MatchPlayerData :=
  { board := p.board
    isAi := p.isAi
    username := p.username
    match_ := p.match_
    attacks := p.attacks
    score := some p.score
    uuid := p.uuid }

/-- Ordering used by `attacks.slice().sort((a, b) => (a.ts > b.ts ? -1 : 1))`:
an attack sorts before another when its timestamp is at least as large
(most recent first; the comparator is inconsistent on ties, whose order is
implementation-defined — a stable descending sort realizes it). -/
def tsGe (a b : StoredAttackData) : Prop := b.ts ≤ a.ts

instance : DecidableRel tsGe := fun a b => Nat.decLe b.ts a.ts

/-- The counting loop of `getContinuousHitsCount`: one per leading hit,
breaking at the first miss. -/
def countLeadingHits : List StoredAttackData → Nat
  | [] => 0
  | a :: rest => if a.result.isHit then countLeadingHits rest + 1 else 0

/-- Translation of `getContinuousHitsCount`: sort a copy of the attacks most
recent first, then count consecutive leading hits. -/
def MatchPlayer.getContinuousHitsCount (p : MatchPlayer) : Nat :=
  countLeadingHits (List.insertionSort tsGe p.attacks)

/-! ### Concrete fixtures used by witnesses and counterexamples -/

/-- A concrete non-overlapping layout: one ship per row, horizontal. -/
def layoutW : ShipPositionData := fun t =>
  match t with
  | .Battleship => { origin := ⟨0, 0⟩, orientation := .horizontal }
  | .Destroyer => { origin := ⟨0, 1⟩, orientation := .horizontal }
  | .Submarine => { origin := ⟨0, 2⟩, orientation := .horizontal }

/-- A concrete options record with a non-numeric score and no board. -/
def optsW : MatchPlayerOpts :=
  { username := "w"
    isAi := false
    uuid := "u"
    match_ := "m"
    score := none
    board := none
    attacks := none }

/-- A concrete player whose single recorded attack carries prediction
metadata. -/
def playerC1 : MatchPlayer :=
  { uuid := "u1"
    username := "alice"
    score := 0
    isAi := false
    match_ := "m1"
    board := { valid := true, positions := createPositionDataWithCells layoutW }
    attacks := [{ ts := 1
                  attack := { origin := ⟨5, 5⟩, prediction := some "heat" }
                  result := AttackResult.miss ⟨5, 5⟩ }] }

/-! ### C1 — `toOpponentJSON` and the authoritative attack history -/

/-- C1: the claim that `toOpponentJSON` leaves the stored state unchanged is
FALSE on the code: `delete a.attack.prediction` operates on the original
stored record (the shallow copy `{...a}` shares the `attack` object), so the
call erases the prediction metadata from the authoritative attack history.
Evaluated at the concrete `playerC1`: before the call the stored record
carries `some "heat"`, after the call it carries `none`, and the post-call
state differs from the pre-call state. -/
theorem toOpponentJSON_mutates_stored_prediction :
    playerC1.attacks.map (fun a => a.attack.prediction) = [some "heat"] ∧
    (playerC1.toOpponentJSON).2.attacks.map (fun a => a.attack.prediction) = [none] ∧
    (playerC1.toOpponentJSON).2 ≠ playerC1 := by
  refine ⟨rfl, rfl, ?_⟩
  have hne : (playerC1.toOpponentJSON).2.attacks ≠ playerC1.attacks := by decide
  exact fun h => hne (congrArg MatchPlayer.attacks h)

/-! ### C7 — snapshot round-trip -/

/-- C7: constructing a fresh `MatchPlayer` from `p.toJSON()` via
`MatchPlayer.from` and serialising again yields exactly `p.toJSON()`: the
board and attacks are adopted verbatim and the (numeric) score survives the
`isNaN` coercion unchanged. -/
theorem from_toJSON_roundTrip (layout : ShipPositionData) (p : MatchPlayer) :
    (MatchPlayer.from layout p.toJSON).toJSON = p.toJSON := rfl

/-! ### C8 — score coercion on construction -/

/-- C8: construction never fails on a malformed score: a non-numeric or
missing score (modelled `none`, the `isNaN` case) is silently coerced to 0,
and a numeric score is adopted unchanged. -/
theorem construct_score_coerces (layout : ShipPositionData) (opts : MatchPlayerOpts) :
    (opts.score = none → (MatchPlayer.construct layout opts).score = 0) ∧
    (∀ v : Int, opts.score = some v → (MatchPlayer.construct layout opts).score = v) := by
  constructor
  · intro h
    simp [MatchPlayer.construct, h]
  · intro v h
    simp [MatchPlayer.construct, h]

/-- Witness for C8 at the concrete `optsW` (score missing): the constructed
score is 0. -/
theorem construct_score_coerces_witness :
    (MatchPlayer.construct layoutW optsW).score = 0 :=
  (construct_score_coerces layoutW optsW).1 rfl

/-! ### Characterization of the attack-resolution loop -/

/-- A fresh expansion stores exactly the ship size worth of cells. -/
theorem createPositionData_cells_length (data : ShipPositionData) (t : ShipType) :
    (createPositionDataWithCells data t).cells.length = ShipSize t := by
  cases h : (data t).orientation <;>
    simp only [createPositionDataWithCells, getCellCoverageForOriginOrientationAndArea, h,
      List.length_map, List.length_range]

/-- The cell-marking step finds nothing exactly when no cell origin matches. -/
theorem hitShipCells_eq_none {origin : CellPosition} {cells : List StoredShipDataCell} :
    hitShipCells origin cells = none ↔
      ∀ c ∈ cells, isSameOrigin c.origin origin = false := by
  induction cells with
  | nil => simp [hitShipCells]
  | cons c rest ih =>
    by_cases h : isSameOrigin c.origin origin
    · simp [hitShipCells, h]
    · rcases hrec : hitShipCells origin rest with _ | ⟨rest2, cell⟩
      · simp [hitShipCells, h, hrec]
        exact ih.mp hrec
      · simp [hitShipCells, h, hrec]
        have hne : hitShipCells origin rest ≠ none := by simp [hrec]
        by_contra hng
        push_neg at hng
        exact hne (ih.mpr fun c2 hc2 => Bool.eq_false_iff.mpr (hng c2 hc2))

/-- When the cell-marking step succeeds, it marks exactly the first cell
whose origin matches and returns that marked cell. -/
theorem hitShipCells_eq_some {origin : CellPosition} {cells : List StoredShipDataCell}
    {cells2 : List StoredShipDataCell} {cell : StoredShipDataCell}
    (h : hitShipCells origin cells = some (cells2, cell)) :
    ∃ j : Fin cells.length,
      isSameOrigin (cells.get j).origin origin = true ∧
      (∀ i : Fin cells.length, i.val < j.val → isSameOrigin (cells.get i).origin origin = false) ∧
      cell = { cells.get j with hit := true } ∧
      cells2 = cells.set j.val { cells.get j with hit := true } := by
  induction cells generalizing cells2 cell with
  | nil => simp [hitShipCells] at h
  | cons c rest ih =>
    by_cases hc : isSameOrigin c.origin origin
    · simp [hitShipCells, hc] at h
      refine ⟨⟨0, by simp⟩, by simpa using hc, ?_, ?_, ?_⟩
      · intro i hi
        exact absurd hi (by simp)
      · exact h.2.symm
      · simp [List.set]
        exact h.1.symm
    · rcases hrec : hitShipCells origin rest with _ | ⟨rest2, cell2⟩
      · simp [hitShipCells, hc, hrec] at h
      · simp [hitShipCells, hc, hrec] at h
        obtain ⟨j, hj1, hj2, hj3, hj4⟩ := ih hrec
        refine ⟨⟨j.val + 1, by simp⟩, by simpa using hj1, ?_, ?_, ?_⟩
        · intro i hi
          rcases i with ⟨ival, hival⟩
          cases ival with
          | zero => simpa using Bool.eq_false_iff.mpr hc
          | succ n =>
            have hn : n < rest.length := by simpa using hival
            have := hj2 ⟨n, hn⟩ (by simpa using hi)
            simpa using this
        · rw [← h.2]
          simpa using hj3
        · rw [← h.1]
          simp [List.set]
          simpa using hj4

/-- The reduce-conjunction over hit flags is the `all` of the hit flags. -/
theorem foldl_and_hit (cells : List StoredShipDataCell) (b : Bool) :
    cells.foldl (fun d v => d && v.hit) b = (b && cells.all (fun c => c.hit)) := by
  induction cells generalizing b with
  | nil => simp
  | cons c rest ih =>
    simp [List.foldl, ih, Bool.and_assoc]

/-- The predicate selecting the ship an attack lands on: not sunk, and some
cell origin matches. -/
def targetPred (positions : PlayerPositionData) (origin : CellPosition) (t : ShipType) : Bool :=
  !(positions t).sunk && (positions t).cells.any (fun c => isSameOrigin c.origin origin)

/-- Definition following the claim wording: the first non-sunk ship in the
board iteration order whose cells contain the attack origin. -/
def firstTargetShip (positions : PlayerPositionData) (origin : CellPosition) :
    Option ShipType :=
  shipTypes.find? (targetPred positions origin)

/-- Full characterization of the attack loop over any key list: either no
non-sunk ship with a matching cell exists and the loop falls through, or the
loop stops at the first such ship, marks the found cell, recomputes sunk and
returns the hit result plus a pointwise-updated position map. -/
theorem determineAttackLoop_spec (positions : PlayerPositionData)
    (origin : CellPosition) (l : List ShipType) :
    (l.find? (targetPred positions origin) = none ∧
      determineAttackLoop positions origin l = none) ∨
    (∃ t cells2 cell,
      l.find? (targetPred positions origin) = some t ∧
      (positions t).sunk = false ∧
      hitShipCells origin (positions t).cells = some (cells2, cell) ∧
      determineAttackLoop positions origin l =
        some (AttackResult.hit cell.origin cell.type
            (cells2.foldl (fun d v => d && v.hit) true),
          fun t2 => if t2 = t then
              { positions t with
                cells := cells2
                sunk := if cells2.foldl (fun d v => d && v.hit) true then true
                        else (positions t).sunk }
            else positions t2)) := by
  induction l with
  | nil => exact Or.inl ⟨rfl, rfl⟩
  | cons t rest ih =>
    by_cases hsunk : (positions t).sunk
    · have hpred : targetPred positions origin t = false := by
        simp [targetPred, hsunk]
      rcases ih with ⟨hf, hl⟩ | ⟨t0, cells2, cell, hf, hs0, hc0, hl⟩
      · exact Or.inl ⟨by simp [List.find?, hpred, hf],
          by simp [determineAttackLoop, hsunk, hl]⟩
      · exact Or.inr ⟨t0, cells2, cell, by simp [List.find?, hpred, hf],
          hs0, hc0, by simp [determineAttackLoop, hsunk, hl]⟩
    · rcases hcells : hitShipCells origin (positions t).cells with _ | ⟨cells2, cell⟩
      · have hany : (positions t).cells.any (fun c => isSameOrigin c.origin origin) = false := by
          rw [List.any_eq_false]
          intro c hc
          exact Bool.eq_false_iff.mp (hitShipCells_eq_none.mp hcells c hc)
        have hpred : targetPred positions origin t = false := by
          simp [targetPred, hany]
        rcases ih with ⟨hf, hl⟩ | ⟨t0, cells0, cell0, hf, hs0, hc0, hl⟩
        · exact Or.inl ⟨by simp [List.find?, hpred, hf],
            by simp [determineAttackLoop, hsunk, hcells, hl]⟩
        · exact Or.inr ⟨t0, cells0, cell0, by simp [List.find?, hpred, hf],
            hs0, hc0, by simp [determineAttackLoop, hsunk, hcells, hl]⟩
      · have hany : (positions t).cells.any (fun c => isSameOrigin c.origin origin) = true := by
          obtain ⟨j, hj1, hj2, hj3, hj4⟩ := hitShipCells_eq_some hcells
          rw [List.any_eq_true]
          exact ⟨(positions t).cells.get j, (positions t).cells.get_mem j.val j.isLt, hj1⟩
        have hpred : targetPred positions origin t = true := by
          simp [targetPred, hsunk, hany]
        refine Or.inr ⟨t, cells2, cell, by simp [List.find?, hpred],
          Bool.eq_false_iff.mpr hsunk, hcells, ?_⟩
        simp [determineAttackLoop, hsunk, hcells]

/-! ### C3 — a fully uncovered attack is a pure miss -/

/-- C3: an attack at an origin covered by no ship cell at all returns the
miss result and leaves the whole player state unchanged. -/
theorem determineAttackResult_miss_frame (p : MatchPlayer) (payload : AttackDataPayload)
    (hmiss : ∀ t, ∀ c ∈ (p.board.positions t).cells,
      isSameOrigin c.origin payload.origin = false) :
    p.determineAttackResult payload = (AttackResult.miss payload.origin, p) := by
  rcases determineAttackLoop_spec p.board.positions payload.origin shipTypes with
    ⟨hf, hl⟩ | ⟨t, cells2, cell, hf, hsunk, hcells, hl⟩
  · simp [MatchPlayer.determineAttackResult, hl]
  · obtain ⟨j, hj1, hj2, hj3, hj4⟩ := hitShipCells_eq_some hcells
    have hfalse := hmiss t ((p.board.positions t).cells.get j)
      ((p.board.positions t).cells.get_mem j.val j.isLt)
    rw [hfalse] at hj1
    exact Bool.noConfusion hj1

/-- Witness for C3: attacking (9, 9) on the concrete board of `playerC1`
(whose ships live in rows 0..2, columns 0..3) misses and preserves the state. -/
theorem determineAttackResult_miss_frame_witness :
    playerC1.determineAttackResult { origin := ⟨9, 9⟩, prediction := none } =
      (AttackResult.miss ⟨9, 9⟩, playerC1) :=
  determineAttackResult_miss_frame playerC1 { origin := ⟨9, 9⟩, prediction := none }
    (by decide)

/-! ### C10 — frame effect of a single attack resolution -/

/-- C10: one call to `determineAttackResult` changes at most one cell hit
flag (to `true`) and at most one sunk flag, both on the first non-sunk ship
in iteration order whose cells contain the attack origin
(`firstTargetShip`); every other ship record, the attacks list, the score,
the board validity flag and the identity fields are untouched. When no such
ship exists the state is unchanged. -/
theorem determineAttackResult_frame (p : MatchPlayer) (payload : AttackDataPayload) :
    (p.determineAttackResult payload).2.uuid = p.uuid ∧
    (p.determineAttackResult payload).2.username = p.username ∧
    (p.determineAttackResult payload).2.score = p.score ∧
    (p.determineAttackResult payload).2.isAi = p.isAi ∧
    (p.determineAttackResult payload).2.match_ = p.match_ ∧
    (p.determineAttackResult payload).2.attacks = p.attacks ∧
    (p.determineAttackResult payload).2.board.valid = p.board.valid ∧
    (match firstTargetShip p.board.positions payload.origin with
     | none => (p.determineAttackResult payload).2 = p
     | some t =>
       (∀ t2, t2 ≠ t →
         (p.determineAttackResult payload).2.board.positions t2 = p.board.positions t2) ∧
       (p.board.positions t).sunk = false ∧
       ((p.determineAttackResult payload).2.board.positions t).type =
         (p.board.positions t).type ∧
       ((p.determineAttackResult payload).2.board.positions t).origin =
         (p.board.positions t).origin ∧
       ((p.determineAttackResult payload).2.board.positions t).orientation =
         (p.board.positions t).orientation ∧
       (∃ j : Fin (p.board.positions t).cells.length,
         isSameOrigin ((p.board.positions t).cells.get j).origin payload.origin = true ∧
         ((p.determineAttackResult payload).2.board.positions t).cells =
           (p.board.positions t).cells.set j.val
             { (p.board.positions t).cells.get j with hit := true }) ∧
       ((p.determineAttackResult payload).2.board.positions t).sunk =
         ((p.determineAttackResult payload).2.board.positions t).cells.all
           (fun c => c.hit)) := by
  rcases determineAttackLoop_spec p.board.positions payload.origin shipTypes with
    ⟨hf, hl⟩ | ⟨t, cells2, cell, hf, hsunk, hcells, hl⟩
  · have hL : p.determineAttackResult payload = (AttackResult.miss payload.origin, p) := by
      simp only [MatchPlayer.determineAttackResult, hl]
    have hft : firstTargetShip p.board.positions payload.origin = none := hf
    rw [hL, hft]
    exact ⟨rfl, rfl, rfl, rfl, rfl, rfl, rfl, rfl⟩
  · have hL : (p.determineAttackResult payload).2 =
        { p with board := { p.board with positions := (fun t2 =>
            if t2 = t then
              { p.board.positions t with
                cells := cells2
                sunk := if cells2.foldl (fun d v => d && v.hit) true then true
                        else (p.board.positions t).sunk }
            else p.board.positions t2) } } := by
      simp only [MatchPlayer.determineAttackResult, hl]
    have hft : firstTargetShip p.board.positions payload.origin = some t := hf
    rw [hL, hft]
    obtain ⟨j, hj1, hj2, hj3, hj4⟩ := hitShipCells_eq_some hcells
    refine ⟨rfl, rfl, rfl, rfl, rfl, rfl, rfl, ?_, hsunk, ?_, ?_, ?_, ?_, ?_⟩
    · intro t2 ht2
      simp [ht2]
    · simp
    · simp
    · simp
    · exact ⟨j, hj1, by simp [hj4]⟩
    · cases hAll : cells2.all (fun c => c.hit) <;>
        simp [foldl_and_hit, hsunk, hAll]

/-! ### C2 — the sunk flag always equals the conjunction of cell hits -/

/-- The state invariant of the claim: every stored ship is flagged sunk
exactly when all of its cells are hit. -/
def sunkInvariant (p : MatchPlayer) : Prop :=
  ∀ t, (p.board.positions t).sunk = (p.board.positions t).cells.all (fun c => c.hit)

/-- States reachable by the core operations themselves, starting from a
construction with a synthesized board (no board supplied; the random layout
is arbitrary). -/
inductive Reachable : MatchPlayer → Prop
  | construct (layout : ShipPositionData) (opts : MatchPlayerOpts)
      (h : opts.board = none) : Reachable (MatchPlayer.construct layout opts)
  | setShip (p : MatchPlayer) (data : ShipPositionData) (valid : Bool) :
      Reachable p → Reachable (p.setShipPositionData data valid)
  | attack (p : MatchPlayer) (payload : AttackDataPayload) :
      Reachable p → Reachable (p.determineAttackResult payload).2
  | record (p : MatchPlayer) (ts : Nat) (a : AttackDataPayload) (r : AttackResult) :
      Reachable p → Reachable (p.recordAttackResult ts a r)
  | oppJSON (p : MatchPlayer) : Reachable p → Reachable (p.toOpponentJSON).2
  | score (p : MatchPlayer) (amt : Int) : Reachable p → Reachable (p.incrementScoreBy amt).2
  | setMatch (p : MatchPlayer) (u : String) :
      Reachable p → Reachable (p.setMatchInstanceUUID u)

/-- A freshly expanded board satisfies the sunk invariant: `sunk` is `false`
and the (non-empty, since every ship size is positive) cell list is all
unhit. -/
theorem createPositionData_sunkInv (data : ShipPositionData) (t : ShipType) :
    (createPositionDataWithCells data t).sunk =
      (createPositionDataWithCells data t).cells.all (fun c => c.hit) := by
  cases h : (data t).orientation <;> cases t <;>
    simp [createPositionDataWithCells, getCellCoverageForOriginOrientationAndArea, h,
      ShipSize, List.range_succ]

/-- C2: at every state reachable by the core operations, every ship's sunk
flag equals the conjunction of its cells' hit flags. -/
theorem reachable_sunkInvariant (p : MatchPlayer) (h : Reachable p) :
    sunkInvariant p := by
  induction h with
  | construct layout opts hb =>
    intro t
    simp only [MatchPlayer.construct, hb]
    exact createPositionData_sunkInv layout t
  | setShip p data valid hr ih =>
    intro t
    exact createPositionData_sunkInv data t
  | attack p payload hr ih =>
    intro t
    rcases determineAttackLoop_spec p.board.positions payload.origin shipTypes with
      ⟨hf, hl⟩ | ⟨t0, cells2, cell, hf, hsunk, hcells, hl⟩
    · simp only [MatchPlayer.determineAttackResult, hl]
      exact ih t
    · simp only [MatchPlayer.determineAttackResult, hl]
      by_cases ht : t = t0
      · subst ht
        cases hAll : cells2.all (fun c => c.hit) <;>
          simp [foldl_and_hit, hsunk, hAll]
      · simpa [ht] using ih t
  | record p ts a r hr ih =>
    intro t
    exact ih t
  | oppJSON p hr ih =>
    intro t
    exact ih t
  | score p amt hr ih =>
    intro t
    exact ih t
  | setMatch p u hr ih =>
    intro t
    exact ih t

/-- Witness for C2: the invariant at a concrete reachable state (fresh
construction from `layoutW`). -/
theorem reachable_sunkInvariant_witness :
    sunkInvariant (MatchPlayer.construct layoutW optsW) :=
  reachable_sunkInvariant (MatchPlayer.construct layoutW optsW)
    (Reachable.construct layoutW optsW rfl)

/-! ### C6 — opponent view reveals exactly the sunk ships -/

/-- A concrete board with the submarine sunk and the other ships untouched. -/
def posC6 : PlayerPositionData := fun t =>
  match t with
  | .Battleship =>
    { sunk := false, type := .Battleship, origin := ⟨0, 0⟩, orientation := .horizontal,
      cells := [⟨⟨0, 0⟩, false, .Battleship⟩, ⟨⟨1, 0⟩, false, .Battleship⟩,
                ⟨⟨2, 0⟩, false, .Battleship⟩, ⟨⟨3, 0⟩, false, .Battleship⟩] }
  | .Destroyer =>
    { sunk := false, type := .Destroyer, origin := ⟨0, 1⟩, orientation := .horizontal,
      cells := [⟨⟨0, 1⟩, false, .Destroyer⟩, ⟨⟨1, 1⟩, false, .Destroyer⟩,
                ⟨⟨2, 1⟩, false, .Destroyer⟩] }
  | .Submarine =>
    { sunk := true, type := .Submarine, origin := ⟨0, 2⟩, orientation := .horizontal,
      cells := [⟨⟨0, 2⟩, true, .Submarine⟩, ⟨⟨1, 2⟩, true, .Submarine⟩] }

/-- A concrete player owning the `posC6` board. -/
def playerC6 : MatchPlayer :=
  { uuid := "u6"
    username := "bob"
    score := 3
    isAi := false
    match_ := "m6"
    board := { valid := true, positions := posC6 }
    attacks := [] }

/-- C6: the opponent view's `board.positions` holds an entry for a ship type
exactly when that ship is sunk (and then it is the full stored record); an
unsunk ship is entirely absent. Stated for boards whose ship records carry
their own key as `type` (true of every board the core itself builds, since
the record key is written into the `type` field on expansion). -/
theorem toOpponentJSON_reveals_iff (p : MatchPlayer)
    (htype : ∀ t, (p.board.positions t).type = t) (t : ShipType) :
    (p.toOpponentJSON).1.board.positions t =
      (if (p.board.positions t).sunk then some (p.board.positions t) else none) := by
  have hB := htype ShipType.Battleship
  have hD := htype ShipType.Destroyer
  have hS := htype ShipType.Submarine
  cases hsB : (p.board.positions ShipType.Battleship).sunk <;>
  cases hsD : (p.board.positions ShipType.Destroyer).sunk <;>
  cases hsS : (p.board.positions ShipType.Submarine).sunk <;>
  cases t <;>
  simp [MatchPlayer.toOpponentJSON, shipTypes, hB, hD, hS, hsB, hsD, hsS]

/-- Witness for C6 on `playerC6`: the sunk submarine is revealed in full. -/
theorem toOpponentJSON_reveals_iff_witness :
    (playerC6.toOpponentJSON).1.board.positions ShipType.Submarine =
      (if (playerC6.board.positions ShipType.Submarine).sunk
        then some (playerC6.board.positions ShipType.Submarine) else none) :=
  toOpponentJSON_reveals_iff playerC6 (by decide) ShipType.Submarine

/-! ### C4 — sinking the last unhit cell, then attacking the sunk ship -/

/-- Auxiliary: `find?` locates an element that satisfies the predicate when
every other listed element fails it. -/
theorem find?_eq_some_of_unique {α : Type} (l : List α) (pred : α → Bool) (t : α)
    (ht : t ∈ l) (hp : pred t = true)
    (hothers : ∀ u ∈ l, u ≠ t → pred u = false) :
    l.find? pred = some t := by
  induction l with
  | nil => cases ht
  | cons a rest ih =>
    by_cases hat : a = t
    · subst hat
      simp [List.find?, hp]
    · have hpa : pred a = false := hothers a (List.mem_cons_self a rest) hat
      have htr : t ∈ rest := by
        rcases List.mem_cons.mp ht with h | h
        · exact absurd h.symm hat
        · exact h
      simp only [List.find?, hpa]
      exact ih htr fun u hu hut => hothers u (List.mem_cons_of_mem a hu) hut

/-- C4: if ship `t` is not sunk, exactly one of its cells (index `j`) is
unhit, the attacked origin is that cell's origin (occurring at no other index
of `t` and on no other ship), then the attack returns a hit with
`destroyed = true` and marks `t` sunk; and any subsequent attack at an origin
covered only by the now-sunk `t` returns `{hit:false, origin}` — the sunk
ship's cells are skipped entirely. -/
theorem determineAttackResult_lastCell_sinks (p : MatchPlayer)
    (payload : AttackDataPayload) (t : ShipType)
    (j : Fin (p.board.positions t).cells.length)
    (hdisj : ∀ t2, t2 ≠ t → ∀ c2 ∈ (p.board.positions t2).cells,
      isSameOrigin c2.origin payload.origin = false)
    (hsunk : (p.board.positions t).sunk = false)
    (hjunhit : ((p.board.positions t).cells.get j).hit = false)
    (hothershit : ∀ i : Fin (p.board.positions t).cells.length, i ≠ j →
      ((p.board.positions t).cells.get i).hit = true)
    (horigin : payload.origin = ((p.board.positions t).cells.get j).origin)
    (hunique : ∀ i : Fin (p.board.positions t).cells.length,
      ((p.board.positions t).cells.get i).origin = payload.origin → i = j) :
    (p.determineAttackResult payload).1 =
      AttackResult.hit ((p.board.positions t).cells.get j).origin
        ((p.board.positions t).cells.get j).type true ∧
    ((p.determineAttackResult payload).2.board.positions t).sunk = true ∧
    (∀ payload2 : AttackDataPayload,
      (∃ c ∈ (p.board.positions t).cells, c.origin = payload2.origin) →
      (∀ t2, t2 ≠ t → ∀ c2 ∈ (p.board.positions t2).cells,
        c2.origin ≠ payload2.origin) →
      ((p.determineAttackResult payload).2.determineAttackResult payload2).1 =
        AttackResult.miss payload2.origin) := by
  have hany : (p.board.positions t).cells.any
      (fun c => isSameOrigin c.origin payload.origin) = true :=
    List.any_eq_true.mpr ⟨(p.board.positions t).cells.get j,
      (p.board.positions t).cells.get_mem j.val j.isLt,
      by simp [isSameOrigin, horigin]⟩
  have hpredt : targetPred p.board.positions payload.origin t = true := by
    simp [targetPred, hsunk, hany]
  have hpredo : ∀ t2 ∈ shipTypes, t2 ≠ t →
      targetPred p.board.positions payload.origin t2 = false := by
    intro t2 _ ht2
    have hany2 : (p.board.positions t2).cells.any
        (fun c => isSameOrigin c.origin payload.origin) = false :=
      List.any_eq_false.mpr fun c hc => by simp [hdisj t2 ht2 c hc]
    simp [targetPred, hany2]
  have hmem : t ∈ shipTypes := by cases t <;> simp [shipTypes]
  have hfind : shipTypes.find? (targetPred p.board.positions payload.origin) = some t :=
    find?_eq_some_of_unique shipTypes (targetPred p.board.positions payload.origin) t
      hmem hpredt hpredo
  rcases determineAttackLoop_spec p.board.positions payload.origin shipTypes with
    ⟨hf, hl⟩ | ⟨t0, cells2, cell, hf, hsunk0, hcells, hl⟩
  · rw [hfind] at hf
    exact Option.noConfusion hf
  · rw [hfind] at hf
    injection hf with ht0
    subst ht0
    obtain ⟨j2, hj2match, hj2first, hcell, hcells2⟩ := hitShipCells_eq_some hcells
    have hj2 : j2 = j :=
      hunique j2 (of_decide_eq_true hj2match)
    subst hj2
    have hall : cells2.all (fun c => c.hit) = true := by
      rw [hcells2, List.all_eq_true]
      intro c hc
      rw [List.mem_iff_getElem] at hc
      obtain ⟨k, hklen, hkc⟩ := hc
      have hklt : k < (p.board.positions t).cells.length := by
        simpa using hklen
      rw [List.getElem_set] at hkc
      by_cases hkj : j2.val = k
      · rw [if_pos hkj] at hkc
        rw [← hkc]
      · rw [if_neg hkj] at hkc
        rw [← hkc]
        have hne : (⟨k, hklt⟩ : Fin (p.board.positions t).cells.length) ≠ j2 := by
          intro hcon
          exact hkj (congrArg Fin.val hcon).symm
        simpa using hothershit ⟨k, hklt⟩ hne
    have hdestroyed : cells2.foldl (fun d v => d && v.hit) true = true := by
      rw [foldl_and_hit, hall]
      rfl
    have hres1 : (p.determineAttackResult payload).1 =
        AttackResult.hit cell.origin cell.type
          (cells2.foldl (fun d v => d && v.hit) true) := by
      simp only [MatchPlayer.determineAttackResult, hl]
    have hppos : (p.determineAttackResult payload).2.board.positions = (fun t2 =>
        if t2 = t then
          { p.board.positions t with
            cells := cells2
            sunk := if cells2.foldl (fun d v => d && v.hit) true then true
                    else (p.board.positions t).sunk }
        else p.board.positions t2) := by
      simp only [MatchPlayer.determineAttackResult, hl]
    have hsunk2 : ((p.determineAttackResult payload).2.board.positions t).sunk = true := by
      rw [hppos]
      simp [hdestroyed]
    refine ⟨?_, hsunk2, ?_⟩
    · rw [hres1, hdestroyed, hcell]
    · intro payload2 hcov hd2
      set q := (p.determineAttackResult payload).2 with hq
      have hfind2 : shipTypes.find?
          (targetPred q.board.positions payload2.origin) = none := by
        rw [List.find?_eq_none]
        intro t2 _
        by_cases ht2 : t2 = t
        · subst ht2
          simp [targetPred, hsunk2]
        · have hcells_t2 : q.board.positions t2 = p.board.positions t2 := by
            rw [hq, hppos]
            simp [ht2]
          have hany2 : (p.board.positions t2).cells.any
              (fun c => isSameOrigin c.origin payload2.origin) = false :=
            List.any_eq_false.mpr fun c hc => by
              simp [isSameOrigin]
              exact hd2 t2 ht2 c hc
          simp [targetPred, hcells_t2, hany2]
      rcases determineAttackLoop_spec q.board.positions payload2.origin shipTypes with
        ⟨hf2, hl2⟩ | ⟨t3, cells3, cell3, hf2, hs3, hc3, hl2⟩
      · simp [MatchPlayer.determineAttackResult, hl2]
      · rw [hfind2] at hf2
        exact Option.noConfusion hf2

/-- A concrete board whose submarine has exactly one unhit cell left. -/
def posC4 : PlayerPositionData := fun t =>
  match t with
  | .Battleship =>
    { sunk := false, type := .Battleship, origin := ⟨0, 0⟩, orientation := .horizontal,
      cells := [⟨⟨0, 0⟩, false, .Battleship⟩, ⟨⟨1, 0⟩, false, .Battleship⟩,
                ⟨⟨2, 0⟩, false, .Battleship⟩, ⟨⟨3, 0⟩, false, .Battleship⟩] }
  | .Destroyer =>
    { sunk := false, type := .Destroyer, origin := ⟨0, 1⟩, orientation := .horizontal,
      cells := [⟨⟨0, 1⟩, false, .Destroyer⟩, ⟨⟨1, 1⟩, false, .Destroyer⟩,
                ⟨⟨2, 1⟩, false, .Destroyer⟩] }
  | .Submarine =>
    { sunk := false, type := .Submarine, origin := ⟨0, 2⟩, orientation := .horizontal,
      cells := [⟨⟨0, 2⟩, true, .Submarine⟩, ⟨⟨1, 2⟩, false, .Submarine⟩] }

/-- A concrete player owning the `posC4` board. -/
def playerC4 : MatchPlayer :=
  { uuid := "u4"
    username := "carol"
    score := 0
    isAi := false
    match_ := "m4"
    board := { valid := true, positions := posC4 }
    attacks := [] }

/-- Witness for C4: attacking the submarine's last unhit cell (1, 2) on
`playerC4` reports a destroying hit and marks the submarine sunk. -/
theorem determineAttackResult_lastCell_sinks_witness :
    (playerC4.determineAttackResult { origin := ⟨1, 2⟩, prediction := none }).1 =
      AttackResult.hit ⟨1, 2⟩ ShipType.Submarine true ∧
    ((playerC4.determineAttackResult
        { origin := ⟨1, 2⟩, prediction := none }).2.board.positions
      ShipType.Submarine).sunk = true := by
  have h := determineAttackResult_lastCell_sinks playerC4
    { origin := ⟨1, 2⟩, prediction := none } ShipType.Submarine
    ⟨1, by decide⟩ (by decide) (by decide) (by decide) (by decide) (by decide)
    (by decide)
  exact ⟨h.1, h.2.1⟩

/-! ### C5 — continuous hit counting -/

/-- Strict most-recent-first ordering on attack records. -/
def tsGT (a b : StoredAttackData) : Prop := b.ts < a.ts

instance : DecidableRel tsGT := fun a b => Nat.decLt b.ts a.ts

instance : IsTotal StoredAttackData tsGe := ⟨fun a b => Nat.le_total b.ts a.ts⟩

instance : IsTrans StoredAttackData tsGe := ⟨fun _ _ _ hab hbc => Nat.le_trans hbc hab⟩

instance : IsAntisymm StoredAttackData tsGT :=
  ⟨fun _ _ h1 h2 => absurd h1 (Nat.lt_asymm h2)⟩

/-- The counting loop counts exactly the leading run of hits. -/
theorem countLeadingHits_eq_takeWhile (l : List StoredAttackData) :
    countLeadingHits l = (l.takeWhile (fun a => a.result.isHit)).length := by
  induction l with
  | nil => rfl
  | cons a rest ih =>
    by_cases h : a.result.isHit
    · simp [countLeadingHits, List.takeWhile_cons, h, ih]
    · simp [countLeadingHits, List.takeWhile_cons, h]

/-- Auxiliary: two pairwise facts on one list combine pointwise. -/
theorem pairwise_and_of {α : Type} {R S : α → α → Prop} :
    ∀ {l : List α}, l.Pairwise R → l.Pairwise S →
      l.Pairwise (fun a b => R a b ∧ S a b)
  | [], _, _ => List.Pairwise.nil
  | a :: l, hr, hs => by
    rcases List.pairwise_cons.mp hr with ⟨hr1, hr2⟩
    rcases List.pairwise_cons.mp hs with ⟨hs1, hs2⟩
    exact List.pairwise_cons.mpr
      ⟨fun b hb => ⟨hr1 b hb, hs1 b hb⟩, pairwise_and_of hr2 hs2⟩

/-- C5: with pairwise-distinct timestamps (the comparator is inconsistent on
ties, so tie order is implementation-defined and left unspecified by the
spec), `getContinuousHitsCount` equals the length of the leading run of hits
of the unique strictly most-recent-first ordering `l` of the attack list; in
particular it is 0 on an empty history and 0 whenever the most recent attack
was a miss. -/
theorem getContinuousHitsCount_spec (p : MatchPlayer) (l : List StoredAttackData)
    (hts : p.attacks.Pairwise (fun a b => a.ts ≠ b.ts))
    (hperm : p.attacks.Perm l)
    (hsorted : l.Sorted tsGT) :
    p.getContinuousHitsCount = (l.takeWhile (fun a => a.result.isHit)).length ∧
    (p.attacks = [] → p.getContinuousHitsCount = 0) ∧
    (∀ a rest, l = a :: rest → a.result.isHit = false →
      p.getContinuousHitsCount = 0) := by
  have hperm2 : (List.insertionSort tsGe p.attacks).Perm l :=
    (List.perm_insertionSort tsGe p.attacks).trans hperm
  have hsorted1 : (List.insertionSort tsGe p.attacks).Sorted tsGe :=
    List.sorted_insertionSort tsGe p.attacks
  have hts1 : (List.insertionSort tsGe p.attacks).Pairwise (fun a b => a.ts ≠ b.ts) :=
    ((List.perm_insertionSort tsGe p.attacks).pairwise_iff
      (fun h => Ne.symm h)).mpr hts
  have hstrict : (List.insertionSort tsGe p.attacks).Sorted tsGT :=
    (pairwise_and_of hsorted1 hts1).imp
      (fun hab => Nat.lt_of_le_of_ne hab.1 (Ne.symm hab.2))
  have heq : List.insertionSort tsGe p.attacks = l :=
    List.eq_of_perm_of_sorted hperm2 hstrict hsorted
  refine ⟨?_, ?_, ?_⟩
  · rw [MatchPlayer.getContinuousHitsCount, heq, countLeadingHits_eq_takeWhile]
  · intro h
    rw [MatchPlayer.getContinuousHitsCount, h]
    rfl
  · intro a rest hl2 hmiss
    rw [MatchPlayer.getContinuousHitsCount, heq, hl2]
    simp [countLeadingHits, hmiss]

/-- A concrete player with three attacks, timestamps 30 > 20 > 10, the two
most recent being hits and the oldest a miss. -/
def playerC5 : MatchPlayer :=
  { uuid := "u5"
    username := "dave"
    score := 0
    isAi := false
    match_ := "m5"
    board := { valid := true, positions := posC6 }
    attacks := [
      { ts := 30, attack := { origin := ⟨0, 2⟩, prediction := none },
        result := AttackResult.hit ⟨0, 2⟩ ShipType.Submarine false },
      { ts := 20, attack := { origin := ⟨1, 2⟩, prediction := none },
        result := AttackResult.hit ⟨1, 2⟩ ShipType.Submarine true },
      { ts := 10, attack := { origin := ⟨5, 5⟩, prediction := none },
        result := AttackResult.miss ⟨5, 5⟩ }] }

/-- Witness for C5 at `playerC5` (its attack list is already strictly
descending by timestamp): the count is the leading-hit run length of that
ordering, namely 2. -/
theorem getContinuousHitsCount_spec_witness :
    playerC5.getContinuousHitsCount =
      (playerC5.attacks.takeWhile (fun a => a.result.isHit)).length :=
  (getContinuousHitsCount_spec playerC5 playerC5.attacks
    (by simp [playerC5, List.pairwise_cons])
    (List.Perm.refl _)
    (by simp [playerC5, List.sorted_cons, tsGT])).1

end Game2021
